import Mathlib

/-!
Verification of the `pipeline_stages` repository (src/pipeline.py,
src/pipeline_stages.py, src/sample.py) against its natural-language
specification.

The Python source is shallowly embedded: strings are `String`, Python ints
(only ever non-negative here: counters starting at 0 and incremented) are `ℕ`,
Python float division in the single place it occurs (`factor = total / count`)
is embedded as exact division in `ℚ`, Python `dict` state is embedded as
`String → Option _`, raised exceptions as `Except String _`, and the file
system used by `save`/`load` as `String → Option Artifact`.
-/

/-! ## A small regular-expression matcher

`OmittedPrepositions.__init__` compiles
`'(.* +on(( +)|$).*)|(.* +at(( +)|$).*)|(.* +in(( +)|$).*)'` and `fit` uses
`re.fullmatch` with it.  We embed exactly the constructs this pattern uses:
character classes (`.` = any char except a newline, literal chars, `' '`),
star over a character class (`.*`, `' '*`), concatenation and alternation.
Matching is decided with Brzozowski derivatives: `nullable r` says whether
`r` accepts the empty word, `deriv r c` is the residual language after `c`,
and a full match of `s` holds when the iterated derivative is nullable.
`fail` (a class matching no character) is the empty language. -/

inductive RE : Type where
  | eps : RE
  | cls : (Char → Bool) → RE
  | starCls : (Char → Bool) → RE
  | cat : RE → RE → RE
  | alt : RE → RE → RE

def failRE : RE := RE.cls (fun _ => false)

def nullable : RE → Bool
  | .eps => true
  | .cls _ => false
  | .starCls _ => true
  | .cat a b => nullable a && nullable b
  | .alt a b => nullable a || nullable b

def reDeriv : RE → Char → RE
  | .eps, _ => failRE
  | .cls p, c => if p c then RE.eps else failRE
  | .starCls p, c => if p c then RE.starCls p else failRE
  | .cat a b, c =>
    if nullable a then RE.alt (RE.cat (reDeriv a c) b) (reDeriv b c)
    else RE.cat (reDeriv a c) b
  | .alt a b, c => RE.alt (reDeriv a c) (reDeriv b c)

def matchRE (r : RE) (s : List Char) : Bool :=
  nullable (s.foldl reDeriv r)

/-- Python `.` : any character except a newline. -/
def dotCls : RE := RE.cls (fun c => c ≠ '\n')

/-- Python `.*`. -/
def dotStar : RE := RE.starCls (fun c => c ≠ '\n')

/-- Python `' +'` : one or more literal space characters. -/
def spacesOne : RE := RE.cat (RE.cls (fun c => c = ' ')) (RE.starCls (fun c => c = ' '))

/-- A literal word, one `cls` per character. -/
def litRE (s : String) : RE :=
  s.data.foldr (fun c r => RE.cat (RE.cls (fun x => x = c)) r) RE.eps

/-- One alternative `(.* +P(( +)|$).*)` of the preposition pattern
(src/pipeline_stages.py line 330).  Under `re.fullmatch`, with `.` not
matching a newline, the `$` branch of `(( +)|$).*` can only succeed when
nothing at all remains (a `$` just before a final newline would leave that
newline for `.*`, which cannot match it), so `(( +)|$).*` is embedded as
`(( +).*) | ε`. -/
def prepBranch (p : String) : RE :=
  RE.cat dotStar
    (RE.cat spacesOne
      (RE.cat (litRE p)
        (RE.alt (RE.cat spacesOne dotStar) RE.eps)))

/-- `self.preposition_regex`: the `'|'.join` of the three branches. -/
def prepositionRegex : RE :=
  RE.alt (prepBranch "on") (RE.alt (prepBranch "at") (prepBranch "in"))

/-- `re.fullmatch(self.preposition_regex, txt)` as a Boolean. -/
def prepFullmatch (txt : String) : Bool :=
  matchRE prepositionRegex txt.data

/-! ## Python string helpers -/

/-- The ASCII whitespace characters Python `str.split()` (and `str.strip()`)
split on; the inputs in this development are ASCII. -/
def isPySpace (c : Char) : Bool :=
  c = ' ' || c = '\t' || c = '\n' || c = '\r' || c = '\x0b' || c = '\x0c'

def pySplitAux : List Char → List Char → List String
  | [], acc => if acc.isEmpty then [] else [String.mk acc.reverse]
  | c :: cs, acc =>
    if isPySpace c then
      if acc.isEmpty then pySplitAux cs [] else String.mk acc.reverse :: pySplitAux cs []
    else pySplitAux cs (c :: acc)

/-- Python `s.split()`: split on whitespace runs, dropping empty pieces. -/
def pySplit (s : String) : List String := pySplitAux s.data []

/-- Python `s.strip()`. -/
def pyStrip (s : String) : String :=
  String.mk (((s.data.dropWhile isPySpace).reverse.dropWhile isPySpace).reverse)

/-- Python `sep.join(pieces)`. -/
def pyJoin (sep : String) : List String → String
  | [] => ""
  | [s] => s
  | s :: rest => s ++ sep ++ pyJoin sep rest

/-- Replacement loop with explicit fuel; one unit of fuel is spent per
consumed character, and replacing a non-empty pattern consumes at least one
character, so `s.length` fuel always suffices. -/
def pyReplaceFuel (pat rep : List Char) : ℕ → List Char → List Char
  | 0, s => s
  | fuel + 1, s =>
    match s with
    | [] => []
    | c :: cs =>
      if pat ≠ [] ∧ pat.isPrefixOf (c :: cs) then
        rep ++ pyReplaceFuel pat rep fuel (List.drop pat.length (c :: cs))
      else
        c :: pyReplaceFuel pat rep fuel cs

/-- Python `s.replace(pat, rep)`: replace every non-overlapping occurrence,
scanning left to right (all patterns used in the source are non-empty). -/
def pyReplace (s pat rep : String) : String :=
  String.mk (pyReplaceFuel pat.data rep.data s.data.length s.data)

/-! ## OmittedPrepositions: the statistical model (src/pipeline_stages.py 292-424) -/

/-- One stat record `(n1, n2, n3, n4)` = (total, with_on, with_at, with_in). -/
abbrev StatRec := ℕ × ℕ × ℕ × ℕ

/-- `self.stat`, the Python dict, as a lookup function. -/
abbrev Stat := String → Option StatRec

def emptyStat : Stat := fun _ => none

/-- `self.prepositions = ('on', 'at', 'in')`. -/
def prepositions : List String := ["on", "at", "in"]

/-- `self.prepositions.index(t)` for `t` one of the three prepositions. -/
def prepIndex (t : String) : ℕ :=
  if t = "on" then 0 else if t = "at" then 1 else 2

/-- `val[prep_indx] += 1` on a record, `prep_indx = prepositions.index(t)+1`
(so 1, 2 or 3; the final catch-all is index 3). -/
def bumpPrep : StatRec → ℕ → StatRec
  | (t, a, b, c), 1 => (t, a + 1, b, c)
  | (t, a, b, c), 2 => (t, a, b + 1, c)
  | (t, a, b, c), _ => (t, a, b, c + 1)

/-- `self.stat[k] = r` (dict insert/overwrite). -/
def statUpdate (st : Stat) (k : String) (r : StatRec) : Stat :=
  fun s => if s = k then some r else st s

/-- The body of the pair loop for one adjacent pair `(prev_token, t)` with
`t` a preposition: bump the existing record, or create `[0,0,0,0]` with the
preposition slot set to 1 (src/pipeline_stages.py 386-395). -/
def recordPair (st : Stat) (prev t : String) : Stat :=
  match st prev with
  | some v => statUpdate st prev (bumpPrep v (prepIndex t + 1))
  | none => statUpdate st prev (bumpPrep (0, 0, 0, 0) (prepIndex t + 1))

/-- `for i, t in enumerate(tokens[1:])`: walk the adjacent pairs of the token
list in order, recording the pairs whose second member is a preposition. -/
def pairLoop : Stat → List String → Stat
  | st, prev :: t :: rest =>
    pairLoop (if t ∈ prepositions then recordPair st prev t else st) (t :: rest)
  | st, _ => st

/-- Processing of a single training string in the first pass of `fit`:
strings that do not fullmatch the preposition regex are skipped
(src/pipeline_stages.py 378-395). -/
def phase1Str (st : Stat) (txt : String) : Stat :=
  if prepFullmatch txt then pairLoop st (pySplit txt) else st

/-- The whole first pass of `fit`, starting from the freshly reset `{}`. -/
def phase1 (X : List String) : Stat := X.foldl phase1Str emptyStat

/-- One token of the second pass: `if token in keys: val[0] += 1`
(src/pipeline_stages.py 399-403). -/
def totalStep (st : Stat) (tok : String) : Stat :=
  match st tok with
  | some (t, a, b, c) => statUpdate st tok (t + 1, a, b, c)
  | none => st

def totalTokens (st : Stat) (tokens : List String) : Stat :=
  tokens.foldl totalStep st

/-- The second pass of `fit`: over every string of the corpus, matched or not
(src/pipeline_stages.py 397-403). -/
def totalPass (st : Stat) (X : List String) : Stat :=
  X.foldl (fun st txt => totalTokens st (pySplit txt)) st

/-- `OmittedPrepositions.fit(X)` (src/pipeline_stages.py 376-405): reset the
table, run the pair pass over regex-matched strings, then the total pass over
the entire corpus.  The resulting `self.stat` is returned. -/
def OmittedPrepositions.fitStat (X : List String) : Stat :=
  totalPass (phase1 X) X

/-! ## OmittedPrepositions.transform (src/pipeline_stages.py 407-424)

The external NLP engine (spaCy) is out of scope per the spec; it is embedded
as a parameter `eng` returning the tagged tokens of the analyzed text, with
`text` and `pos` the two attributes the code reads.  `if doc:` is Python
truthiness of the returned document (non-empty), `doc[-1]` its last token. -/

structure EngToken : Type where
  text : String
  pos : String
deriving DecidableEq

/-- `self.threshold = 27` (src/pipeline_stages.py 346). -/
def opThreshold : ℕ := 27

/-- Tuple indexing `cnts[i]` on a 4-record, for the indices 0-3 the code uses. -/
def recGet : StatRec → ℕ → ℕ
  | (t, _, _, _), 0 => t
  | (_, a, _, _), 1 => a
  | (_, _, b, _), 2 => b
  | (_, _, _, c), _ => c

/-- `cnts[1:].index(max(cnts[1:])) + 1`: the first index (1-based into the
record) achieving the maximum of the three preposition counters. -/
def maxIndex3 (a b c : ℕ) : ℕ :=
  if a = max a (max b c) then 1
  else if b = max a (max b c) then 2
  else 3

/-- `self.prepositions[i]` for the 0-based indices the code produces. -/
def prepGet : ℕ → String
  | 0 => "on"
  | 1 => "at"
  | _ => "in"

/-- `OmittedPrepositions.transform(X)`.  `if not X: return X`; otherwise the
last token's text is analyzed by the engine; on a non-empty document whose
last token is tagged VERB and has a record in `self.stat` (a present record,
being a non-empty tuple, is always truthy), the best preposition counter is
selected, `factor = cnt_total / cnt_with_prep if cnt_with_prep else threshold`
(float division embedded exactly in `ℚ`), and the preposition is appended
(`X.append`) when `factor <= threshold`. -/
def OmittedPrepositions.transform (eng : String → List EngToken) (stat : Stat)
    (threshold : ℕ) (X : List String) : List String :=
  match X.getLast? with
  | none => X
  | some lastX =>
    match (eng lastX).getLast? with
    | none => X
    | some lastTok =>
      if lastTok.pos = "VERB" then
        match stat lastTok.text with
        | none => X
        | some (t, a, b, c) =>
          let maxIdx := maxIndex3 a b c
          let cntWithPrep := recGet (t, a, b, c) maxIdx
          let factor : ℚ :=
            if cntWithPrep ≠ 0 then (t : ℚ) / (cntWithPrep : ℚ) else (threshold : ℚ)
          if factor ≤ (threshold : ℚ) then X ++ [prepGet (maxIdx - 1)] else X
      else X

/-- The fit corpus of the spec's concrete scenario (spec §8). -/
def corpusScenario : List String :=
  ["i work on monday", "i work on tuesday", "i relax"]

/-- An engine that tags every analyzed text as a single VERB token
(used to instantiate engine-dependent theorems). -/
def engVerb : String → List EngToken := fun s => [{ text := s, pos := "VERB" }]

/-- A one-key stat table used to instantiate stat-dependent theorems. -/
def statOneKey : Stat := fun s => if s = "work" then some (2, 2, 0, 0) else none

/-! ## Persistence: save / load / __init__ (src/pipeline_stages.py 315-374)

The compressed pickle artifact holds `{'stat': ..., 'threshold': ...}`; the
file system is embedded as a map from paths to artifacts, `gzip.open` of a
missing path as an error.  Python truthiness of the optional path argument
(`if storage_path:`) is false for both `None` and the empty string. -/

structure Artifact : Type where
  stat : Stat
  threshold : ℕ

abbrev Store := String → Option Artifact

/-- `self.file_name = f'{self.name}.mdl'` with `self.name = 'prepositions_of_time'`. -/
def opFileName : String := "prepositions_of_time.mdl"

/-- `os.path.join(self.storage_path, self.file_name)` for the relative file
name used here. -/
def pathJoin (dir file : String) : String := dir ++ "/" ++ file

/-- Python truthiness of the `storage_path` value. -/
def truthyPath : Option String → Bool
  | none => false
  | some s => !(s == "")

/-- The mutable state of an `OmittedPrepositions` instance that `save`,
`load` and `fit` touch. -/
structure OPModel : Type where
  storage_path : Option String
  stat : Stat
  threshold : ℕ

/-- `save(storage_path=None)`: optionally adopt the argument path, then, if a
path is configured, write `{stat, threshold}` at `path/file_name`; otherwise
do nothing.  Returns the updated instance and file system. -/
def opSave (m : OPModel) (param : Option String) (store : Store) : OPModel × Store :=
  let m2 := if truthyPath param then { m with storage_path := param } else m
  if truthyPath m2.storage_path then
    (m2, fun p =>
      if p = pathJoin (m2.storage_path.getD "") opFileName then
        some { stat := m2.stat, threshold := m2.threshold }
      else store p)
  else (m2, store)

/-- `load(storage_path=None)`: optionally adopt the argument path, then, if a
path is configured, open the artifact (raising if the file is absent) and
replace `self.stat`; the line restoring `self.threshold` is commented out in
the source, so the threshold is never overwritten. -/
def opLoad (m : OPModel) (param : Option String) (store : Store) : Except String OPModel :=
  let m2 := if truthyPath param then { m with storage_path := param } else m
  if truthyPath m2.storage_path then
    match store (pathJoin (m2.storage_path.getD "") opFileName) with
    | none => Except.error "FileNotFoundError"
    | some art => Except.ok { m2 with stat := art.stat }
  else Except.ok m2

/-- `OmittedPrepositions.__init__(storage_path=...)`: sets an empty stat
table and `threshold = 27`, then calls `self.load(self.storage_path)`.
(The engine configuration done by `__init__` is out of scope per the spec.) -/
def opInit (storage_path : Option String) (store : Store) : Except String OPModel :=
  opLoad { storage_path := storage_path, stat := emptyStat, threshold := 27 }
    storage_path store

/-! ## Pipeline orchestrator (src/pipeline.py)

`SomePipeline.__init__` (src/sample.py) fills `self.pipe` with
`(name, stage)` tuples.  `Pipeline.transform` reads `step[1]` before calling
`transform`, but `Pipeline.fit` calls `self.pipe[i].fit(X, Y)` directly on
the list element.  Python attribute lookup is embedded per element kind: a
tuple has no `fit` attribute (AttributeError), a bare stage object has the
inherited `PipelineStage.fit`, which returns `self`. -/

structure Stage (α : Type) : Type where
  transformF : α → α

inductive PipeElem (α : Type) : Type where
  | pair : String → Stage α → PipeElem α
  | stage : Stage α → PipeElem α

/-- The attribute call `elem.fit(X, Y)` under Python semantics. -/
def PipeElem.fitCall {α : Type} : PipeElem α → α → Option α → Except String (PipeElem α)
  | PipeElem.pair _ _, _, _ =>
    Except.error "AttributeError: tuple object has no attribute fit"
  | PipeElem.stage s, _, _ => Except.ok (PipeElem.stage s)

/-- `Pipeline.fit(X, Y)` (src/pipeline.py 6-14): `for i in range(len(self.pipe)):
self.pipe[i].fit(X, Y)`, a raised exception aborting the loop; on success the
pipeline itself (its element list) is returned. -/
def Pipeline.fit {α : Type} : List (PipeElem α) → α → Option α → Except String (List (PipeElem α))
  | [], _, _ => Except.ok []
  | e :: rest, X, Y =>
    match PipeElem.fitCall e X Y with
    | Except.error msg => Except.error msg
    | Except.ok e2 =>
      match Pipeline.fit rest X Y with
      | Except.error msg => Except.error msg
      | Except.ok rest2 => Except.ok (e2 :: rest2)

/-- `Pipeline.transform(X)` (src/pipeline.py 16-23): `step = self.pipe[i];
X = step[1].transform(X)` — subscripting a tuple yields the stage, while
subscripting a bare stage object raises. -/
def Pipeline.transformSteps {α : Type} : List (PipeElem α) → α → Except String α
  | [], X => Except.ok X
  | PipeElem.pair _ s :: rest, X => Pipeline.transformSteps rest (s.transformF X)
  | PipeElem.stage _ :: _, _ => Except.error "TypeError: object is not subscriptable"

/-! ## Decontract (src/pipeline_stages.py 194-206)

`CONTRACTIONS` is imported from a `contractions` module that is not under
src/; the transform is therefore parametrized by the lookup table.
`X = X.replace("’", "'")`, then for each whitespace token of that string
(the iterator `X.split()` is evaluated once, before the loop body rebinds
`X`), a truthy expansion is substituted with `X.replace(token, expansion)` —
Python substring replacement over the whole current string. -/

def rightSingleQuote : String := "’"

def apostrophe : String := "\x27"

/-- One loop iteration: `decontraction = CONTRACTIONS.get(token);
if decontraction: X = X.replace(token, decontraction)` (an empty-string
expansion is falsy and performs no replacement). -/
def decontractStep (table : String → Option String) (acc : String) (token : String) : String :=
  match table token with
  | some d => if d = "" then acc else pyReplace acc token d
  | none => acc

def Decontract.transform (table : String → Option String) (X : String) : String :=
  let X2 := pyReplace X rightSingleQuote apostrophe
  (pySplit X2).foldl (decontractStep table) X2

/-- Modelled from the spec: the static contraction table `CONTRACTIONS`
(imported from the `contractions` module, which is not under src/) maps
contracted word forms to their full versions (spec §4.2 "Decontract",
glossary "Decontraction").  A representative fragment suffices for the
claims about the mechanism. -/
def CONTRACTIONS : String → Option String := fun s =>
  if s = "don\x27t" then some "do not"
  else if s = "can\x27t" then some "can not"
  else if s = "i\x27m" then some "i am"
  else if s = "he\x27s" then some "he is"
  else if s = "she\x27s" then some "she is"
  else none

/-! ## GeneralizeTimeOfTheDay (src/pipeline_stages.py 98-116) -/

/-- `string.punctuation`. -/
def pyPunctuation : List Char :=
  ("!\"#$%&\x27()*+,-./:;<=>?@[\\]^_\x60\x7b|\x7d~").data

/-- `token.translate(str.maketrans('', '', string.punctuation))`. -/
def stripPunct (s : String) : String :=
  String.mk (s.data.filter (fun c => !(pyPunctuation.contains c)))

def timeOfTheDayLabel : String := "TIME_OF_THE_DAY"

/-- `self.synonyms` exactly as the tuple literal at src/pipeline_stages.py
105-110 evaluates: the adjacent string literals `'bedtime'` and `'day'`
(no comma between them, line 105-106) concatenate into `'bedtimeday'`. -/
def timeOfDaySynonyms : List String :=
  ["afternoon", "arvo", "bedtimeday", "daylight", "daytime",
   "eve", "evening", "mealtime",
   "morning", "night", "nighttime",
   "tonight", "lunchtime"]

/-- The per-token substitution of the list comprehension. -/
def timeOfDayMap (token : String) : String :=
  if timeOfDaySynonyms.contains (stripPunct token) then timeOfTheDayLabel else token

/-- `GeneralizeTimeOfTheDay.transform(X)`: the `' '.join` of the comprehension
`[label if ... else token for token in X.split() if token.strip()]`. -/
def GeneralizeTimeOfTheDay.transform (X : String) : String :=
  pyJoin " " (((pySplit X).filter (fun token => !(pyStrip token == ""))).map timeOfDayMap)

/-! ## Counting helpers used by the fit theorems -/

/-- The number of adjacent pairs of `l` whose first member is `k` and whose
second member is one of the three prepositions. -/
def countPairs (k : String) : List String → ℕ
  | prev :: t :: rest =>
    (if prev = k ∧ t ∈ prepositions then 1 else 0) + countPairs k (t :: rest)
  | _ => 0

/-- The number of occurrences of `k` in `l`. -/
def countOcc (k : String) : List String → ℕ
  | [] => 0
  | t :: rest => (if t = k then 1 else 0) + countOcc k rest

/-- Occurrences of `k` as a whitespace token across a corpus. -/
def corpusOcc (k : String) : List String → ℕ
  | [] => 0
  | txt :: rest => countOcc k (pySplit txt) + corpusOcc k rest

/-- Preposition-preceded pairs with first member `k` across a corpus. -/
def corpusPairs (k : String) : List String → ℕ
  | [] => 0
  | txt :: rest => countPairs k (pySplit txt) + corpusPairs k rest

/-- Whether some token at position ≥ 1 of the list is one of the three
prepositions (i.e. some adjacent pair ends in a preposition). -/
def hasAdjacentPrep : List String → Prop
  | _ :: t :: rest => t ∈ prepositions ∨ hasAdjacentPrep (t :: rest)
  | _ => False

/-- The sum of the three preposition counters of `k`, 0 when `k` is absent. -/
def prepSum (st : Stat) (k : String) : ℕ :=
  match st k with
  | some (_, a, b, c) => a + b + c
  | none => 0

/-- The total counter of `k`, 0 when `k` is absent. -/
def totalOf (st : Stat) (k : String) : ℕ :=
  match st k with
  | some (t, _, _, _) => t
  | none => 0

/-! ## Helper lemmas -/

theorem totalOf_eq (st : Stat) (k : String) :
    totalOf st k = ((st k).getD (0, 0, 0, 0)).1 := by
  unfold totalOf
  rcases st k with _ | ⟨t, a, b, c⟩ <;> rfl

theorem prepSum_eq (st : Stat) (k : String) :
    prepSum st k =
      ((st k).getD (0, 0, 0, 0)).2.1 + ((st k).getD (0, 0, 0, 0)).2.2.1 +
        ((st k).getD (0, 0, 0, 0)).2.2.2 := by
  unfold prepSum
  rcases st k with _ | ⟨t, a, b, c⟩ <;> rfl

theorem bumpPrep_shape (tv av bv cv i : ℕ) :
    ∃ a2 b2 c2, bumpPrep (tv, av, bv, cv) i = (tv, a2, b2, c2) ∧
      a2 + b2 + c2 = av + bv + cv + 1 :=
  match i with
  | 0 => ⟨av, bv, cv + 1, rfl, by omega⟩
  | 1 => ⟨av + 1, bv, cv, rfl, by omega⟩
  | 2 => ⟨av, bv + 1, cv, rfl, by omega⟩
  | _ + 3 => ⟨av, bv, cv + 1, rfl, by omega⟩

theorem recordPair_apply (st : Stat) (prev t k : String) :
    recordPair st prev t k =
      if k = prev then
        some (bumpPrep ((st prev).getD (0, 0, 0, 0)) (prepIndex t + 1))
      else st k := by
  unfold recordPair statUpdate
  rcases hst : st prev with _ | v <;> simp only [hst, Option.getD_some, Option.getD_none]

theorem totalOf_recordPair (st : Stat) (prev t k : String) :
    totalOf (recordPair st prev t) k = totalOf st k := by
  rw [totalOf_eq, totalOf_eq, recordPair_apply]
  by_cases hk : k = prev
  · rw [if_pos hk, hk]
    rcases hv : (st prev).getD (0, 0, 0, 0) with ⟨tv, av, bv, cv⟩
    obtain ⟨a2, b2, c2, heq, -⟩ := bumpPrep_shape tv av bv cv (prepIndex t + 1)
    rw [heq, Option.getD_some]
  · rw [if_neg hk]

theorem prepSum_recordPair (st : Stat) (prev t k : String) :
    prepSum (recordPair st prev t) k = prepSum st k + (if k = prev then 1 else 0) := by
  rw [prepSum_eq, prepSum_eq, recordPair_apply]
  by_cases hk : k = prev
  · rw [if_pos hk, if_pos hk, hk]
    rcases hv : (st prev).getD (0, 0, 0, 0) with ⟨tv, av, bv, cv⟩
    obtain ⟨a2, b2, c2, heq, hsum⟩ := bumpPrep_shape tv av bv cv (prepIndex t + 1)
    rw [heq, Option.getD_some]
    simpa using hsum
  · rw [if_neg hk, if_neg hk]
    omega

theorem recordPair_none (st : Stat) (prev t k : String) :
    recordPair st prev t k = none ↔ st k = none ∧ ¬ k = prev := by
  rw [recordPair_apply]
  by_cases hk : k = prev <;> simp [hk]

theorem totalOf_pairLoop (tokens : List String) :
    ∀ (st : Stat) (k : String), totalOf (pairLoop st tokens) k = totalOf st k := by
  induction tokens with
  | nil => intro st k; rfl
  | cons prev rest ih =>
    cases rest with
    | nil => intro st k; rfl
    | cons t rest2 =>
      intro st k
      simp only [pairLoop]
      rw [ih]
      by_cases hc : t ∈ prepositions
      · rw [if_pos hc, totalOf_recordPair]
      · rw [if_neg hc]

theorem prepSum_pairLoop (tokens : List String) :
    ∀ (st : Stat) (k : String),
      prepSum (pairLoop st tokens) k = prepSum st k + countPairs k tokens := by
  induction tokens with
  | nil => intro st k; simp [pairLoop, countPairs]
  | cons prev rest ih =>
    cases rest with
    | nil => intro st k; simp [pairLoop, countPairs]
    | cons t rest2 =>
      intro st k
      simp only [pairLoop, countPairs]
      rw [ih]
      by_cases hc : t ∈ prepositions
      · rw [if_pos hc, prepSum_recordPair]
        by_cases hk : k = prev
        · have h1 : (if k = prev then 1 else 0) = 1 := if_pos hk
          have h2 : (if prev = k ∧ t ∈ prepositions then 1 else 0) = 1 :=
            if_pos ⟨hk.symm, hc⟩
          omega
        · have h1 : (if k = prev then 1 else 0) = 0 := if_neg hk
          have h2 : (if prev = k ∧ t ∈ prepositions then 1 else 0) = 0 :=
            if_neg (fun hcon => hk hcon.1.symm)
          omega
      · rw [if_neg hc]
        have h2 : (if prev = k ∧ t ∈ prepositions then 1 else 0) = 0 :=
          if_neg (fun hcon => hc hcon.2)
        omega

theorem pairLoop_none (tokens : List String) :
    ∀ (st : Stat) (k : String),
      pairLoop st tokens k = none ↔ st k = none ∧ countPairs k tokens = 0 := by
  induction tokens with
  | nil => intro st k; simp [pairLoop, countPairs]
  | cons prev rest ih =>
    cases rest with
    | nil => intro st k; simp [pairLoop, countPairs]
    | cons t rest2 =>
      intro st k
      simp only [pairLoop, countPairs]
      rw [ih]
      by_cases hc : t ∈ prepositions
      · rw [if_pos hc, recordPair_none]
        by_cases hk : k = prev
        · have h2 : (if prev = k ∧ t ∈ prepositions then 1 else 0) = 1 :=
            if_pos ⟨hk.symm, hc⟩
          constructor
          · rintro ⟨⟨-, hbad⟩, -⟩; exact absurd hk hbad
          · rintro ⟨-, hsum⟩; omega
        · have h2 : (if prev = k ∧ t ∈ prepositions then 1 else 0) = 0 :=
            if_neg (fun hcon => hk hcon.1.symm)
          constructor
          · rintro ⟨⟨hnone, -⟩, hcp⟩; exact ⟨hnone, by omega⟩
          · rintro ⟨hnone, hsum⟩; exact ⟨⟨hnone, hk⟩, by omega⟩
      · rw [if_neg hc]
        have h2 : (if prev = k ∧ t ∈ prepositions then 1 else 0) = 0 :=
          if_neg (fun hcon => hc hcon.2)
        constructor
        · rintro ⟨hnone, hcp⟩; exact ⟨hnone, by omega⟩
        · rintro ⟨hnone, hsum⟩; exact ⟨hnone, by omega⟩

theorem totalOf_phase1_fold (X : List String) :
    ∀ (st : Stat) (k : String), totalOf (X.foldl phase1Str st) k = totalOf st k := by
  induction X with
  | nil => intro st k; rfl
  | cons txt rest ih =>
    intro st k
    simp only [List.foldl]
    rw [ih]
    unfold phase1Str
    by_cases hm : prepFullmatch txt = true
    · rw [if_pos hm, totalOf_pairLoop]
    · rw [if_neg hm]

theorem prepSum_phase1_fold_le (X : List String) :
    ∀ (st : Stat) (k : String),
      prepSum (X.foldl phase1Str st) k ≤ prepSum st k + corpusPairs k X := by
  induction X with
  | nil => intro st k; simp [corpusPairs]
  | cons txt rest ih =>
    intro st k
    simp only [List.foldl, corpusPairs]
    refine le_trans (ih _ _) ?_
    unfold phase1Str
    by_cases hm : prepFullmatch txt = true
    · rw [if_pos hm, prepSum_pairLoop]; omega
    · rw [if_neg hm]; omega

theorem phase1_fold_pos (X : List String) :
    ∀ (st : Stat),
      (∀ k, st k ≠ none → 1 ≤ prepSum st k) →
      ∀ k, (X.foldl phase1Str st) k ≠ none → 1 ≤ prepSum (X.foldl phase1Str st) k := by
  induction X with
  | nil => intro st h k; exact h k
  | cons txt rest ih =>
    intro st h
    simp only [List.foldl]
    apply ih
    intro k2 hk2
    unfold phase1Str at hk2 ⊢
    by_cases hm : prepFullmatch txt = true
    · rw [if_pos hm] at hk2 ⊢
      rw [prepSum_pairLoop]
      by_cases hnone : st k2 = none
      · have hcp : countPairs k2 (pySplit txt) ≠ 0 := by
          intro h0
          exact hk2 ((pairLoop_none _ _ _).2 ⟨hnone, h0⟩)
        omega
      · have := h k2 hnone
        omega
    · rw [if_neg hm] at hk2 ⊢
      exact h k2 hk2

theorem totalTokens_some (tokens : List String) :
    ∀ (st : Stat) (k : String) (t a b c : ℕ),
      st k = some (t, a, b, c) →
      totalTokens st tokens k = some (t + countOcc k tokens, a, b, c) := by
  induction tokens with
  | nil =>
    intro st k t a b c h
    simpa [totalTokens, countOcc] using h
  | cons tok rest ih =>
    intro st k t a b c h
    show totalTokens (totalStep st tok) rest k = _
    unfold totalStep
    by_cases hk : tok = k
    · subst hk
      rw [h]
      have hupd : statUpdate st tok (t + 1, a, b, c) tok = some (t + 1, a, b, c) := by
        simp [statUpdate]
      have hres := ih (statUpdate st tok (t + 1, a, b, c)) tok (t + 1) a b c hupd
      rw [hres]
      have : countOcc tok (tok :: rest) = 1 + countOcc tok rest := by
        simp [countOcc]
      rw [this]
      congr 2
      omega
    · have hcnt : countOcc k (tok :: rest) = countOcc k rest := by
        simp [countOcc, hk]
      rw [hcnt]
      rcases hst : st tok with _ | v
      · exact ih st k t a b c h
      · obtain ⟨tv, av, bv, cv⟩ := v
        have hk2 : ¬ k = tok := fun h2 => hk h2.symm
        have hupd : statUpdate st tok (tv + 1, av, bv, cv) k = some (t, a, b, c) := by
          simp [statUpdate, hk2, h]
        exact ih _ k t a b c hupd

theorem totalTokens_none (tokens : List String) :
    ∀ (st : Stat) (k : String), st k = none → totalTokens st tokens k = none := by
  induction tokens with
  | nil => intro st k h; simpa [totalTokens] using h
  | cons tok rest ih =>
    intro st k h
    show totalTokens (totalStep st tok) rest k = none
    unfold totalStep
    rcases hst : st tok with _ | v
    · exact ih st k h
    · obtain ⟨tv, av, bv, cv⟩ := v
      apply ih
      have hk : ¬ k = tok := by
        intro h2; rw [h2, hst] at h; exact Option.noConfusion h
      simp [statUpdate, hk, h]

theorem totalPass_some (X : List String) :
    ∀ (st : Stat) (k : String) (t a b c : ℕ),
      st k = some (t, a, b, c) →
      totalPass st X k = some (t + corpusOcc k X, a, b, c) := by
  induction X with
  | nil =>
    intro st k t a b c h
    simpa [totalPass, corpusOcc] using h
  | cons txt rest ih =>
    intro st k t a b c h
    show totalPass (totalTokens st (pySplit txt)) rest k = _
    have h1 := totalTokens_some (pySplit txt) st k t a b c h
    have h2 := ih _ k _ a b c h1
    rw [h2]
    have : corpusOcc k (txt :: rest) = countOcc k (pySplit txt) + corpusOcc k rest := rfl
    rw [this]
    congr 2
    omega

theorem totalPass_none (X : List String) :
    ∀ (st : Stat) (k : String), st k = none → totalPass st X k = none := by
  induction X with
  | nil => intro st k h; simpa [totalPass] using h
  | cons txt rest ih =>
    intro st k h
    show totalPass (totalTokens st (pySplit txt)) rest k = none
    exact ih _ k (totalTokens_none _ st k h)

theorem countPairs_le_countOcc (k : String) (l : List String) :
    countPairs k l ≤ countOcc k l := by
  induction l with
  | nil => simp [countPairs, countOcc]
  | cons prev rest ih =>
    cases rest with
    | nil => simp [countPairs, countOcc]
    | cons t rest2 =>
      have hrec := ih
      simp only [countPairs, countOcc] at hrec ⊢
      by_cases hk : prev = k
      · by_cases hc : t ∈ prepositions
        · rw [if_pos ⟨hk, hc⟩, if_pos hk]; omega
        · rw [if_neg (fun hcon => hc hcon.2), if_pos hk]; omega
      · rw [if_neg (fun hcon => hk hcon.1), if_neg hk]; omega

theorem corpusPairs_le_corpusOcc (k : String) (X : List String) :
    corpusPairs k X ≤ corpusOcc k X := by
  induction X with
  | nil => simp [corpusPairs, corpusOcc]
  | cons txt rest ih =>
    simp only [corpusPairs, corpusOcc]
    have := countPairs_le_countOcc k (pySplit txt)
    omega

theorem exists_countPairs_pos (l : List String) :
    (∃ k, 0 < countPairs k l) ↔ hasAdjacentPrep l := by
  induction l with
  | nil => simp [countPairs, hasAdjacentPrep]
  | cons prev rest ih =>
    cases rest with
    | nil => simp [countPairs, hasAdjacentPrep]
    | cons t rest2 =>
      simp only [hasAdjacentPrep]
      constructor
      · rintro ⟨k, hk⟩
        simp only [countPairs] at hk
        by_cases hc : t ∈ prepositions
        · exact Or.inl hc
        · refine Or.inr (ih.1 ⟨k, ?_⟩)
          have h0 : (if prev = k ∧ t ∈ prepositions then 1 else 0) = 0 :=
            if_neg (fun hcon => hc hcon.2)
          omega
      · rintro (hc | hrec)
        · refine ⟨prev, ?_⟩
          simp only [countPairs]
          simp [hc]
        · obtain ⟨k, hk⟩ := ih.2 hrec
          refine ⟨k, ?_⟩
          simp only [countPairs]
          omega

theorem recGet_maxIndex3 (t a b c : ℕ) :
    recGet (t, a, b, c) (maxIndex3 a b c) = max a (max b c) := by
  unfold maxIndex3
  by_cases h1 : a = max a (max b c)
  · rw [if_pos h1]; exact h1
  · rw [if_neg h1]
    by_cases h2 : b = max a (max b c)
    · rw [if_pos h2]; exact h2
    · rw [if_neg h2]
      show c = max a (max b c)
      rcases max_choice a (max b c) with h | h
      · exact absurd h.symm h1
      · rcases max_choice b c with h3 | h3
        · exact absurd (h.trans h3).symm h2
        · exact (h.trans h3).symm

theorem prepGet_maxIndex3 (a b c : ℕ) :
    prepGet (maxIndex3 a b c - 1) =
      if a = max a (max b c) then "on"
      else if b = max a (max b c) then "at" else "in" := by
  unfold maxIndex3
  by_cases h1 : a = max a (max b c)
  · rw [if_pos h1, if_pos h1]; rfl
  · rw [if_neg h1, if_neg h1]
    by_cases h2 : b = max a (max b c)
    · rw [if_pos h2, if_pos h2]; rfl
    · rw [if_neg h2, if_neg h2]; rfl

theorem prepGet_mem (n : ℕ) : prepGet n ∈ prepositions :=
  match n with
  | 0 => by simp [prepGet, prepositions]
  | 1 => by simp [prepGet, prepositions]
  | _ + 2 => by simp [prepGet, prepositions]

theorem foldl_decontractStep_none (table : String → Option String) :
    ∀ (tokens : List String) (acc : String),
      (∀ tok ∈ tokens, table tok = none) →
      tokens.foldl (decontractStep table) acc = acc := by
  intro tokens
  induction tokens with
  | nil => intro acc _; rfl
  | cons tok rest ih =>
    intro acc h
    have hstep : decontractStep table acc tok = acc := by
      unfold decontractStep
      rw [h tok (by simp)]
    show rest.foldl (decontractStep table) (decontractStep table acc tok) = acc
    rw [hstep]
    exact ih acc (fun t2 ht2 => h t2 (by simp [ht2]))

/-! ## Claim theorems -/

/-- C1: the claim states that `Pipeline.fit(X, Y)` invokes each stage's `fit`
with the original `X`, `Y` in sequence order and returns the pipeline itself.
On a pipeline built as `(name, stage)` pairs — as `SomePipeline.__init__`
builds it — `self.pipe[i].fit(X, Y)` is an attribute access on the tuple, not
on the stage, and raises before any stage's `fit` runs; `transform`, by
contrast, correctly subscripts the pair.  This theorem evaluates the code at
the failing input: for every pair-headed pipeline, `fit` raises
`AttributeError` while `transform` reaches the stage. -/
theorem pipeline_fit_tuple_error {α : Type} (name : String) (s : Stage α)
    (rest : List (PipeElem α)) (X : α) (Y : Option α) :
    Pipeline.fit (PipeElem.pair name s :: rest) X Y =
      Except.error "AttributeError: tuple object has no attribute fit" ∧
    Pipeline.transformSteps (PipeElem.pair name s :: rest) X =
      Pipeline.transformSteps rest (s.transformF X) :=
  ⟨rfl, rfl⟩

/-- Unfolding of `OmittedPrepositions.transform` on the VERB-with-record
path, shared by the claim theorems below. -/
theorem transform_eval (eng : String → List EngToken) (stat : Stat)
    (thr : ℕ) (X : List String) (lastX : String) (lastTok : EngToken)
    (t a b c : ℕ)
    (hX : X.getLast? = some lastX)
    (hdoc : (eng lastX).getLast? = some lastTok)
    (hpos : lastTok.pos = "VERB")
    (hstat : stat lastTok.text = some (t, a, b, c)) :
    OmittedPrepositions.transform eng stat thr X =
      (if (if recGet (t, a, b, c) (maxIndex3 a b c) ≠ 0 then
            (t : ℚ) / (recGet (t, a, b, c) (maxIndex3 a b c) : ℚ)
          else (thr : ℚ)) ≤ (thr : ℚ)
       then X ++ [prepGet (maxIndex3 a b c - 1)] else X) := by
  unfold OmittedPrepositions.transform
  rw [hX]
  dsimp only
  rw [hdoc]
  dsimp only
  rw [if_pos hpos, hstat]

/-- C2: fitting on `["i work on monday", "i work on tuesday", "i relax"]`
yields the record `(total=2, with_on=2, with_at=0, with_in=0)` for `"work"`
and no record for `"relax"`; with the default threshold 27 and an engine
whose document for `"work"` ends in the token `"work"` tagged VERB,
`transform(["i","work"])` returns `["i","work","on"]`. -/
theorem omitted_fit_scenario (eng : String → List EngToken)
    (h : (eng "work").getLast? = some { text := "work", pos := "VERB" }) :
    OmittedPrepositions.fitStat corpusScenario "work" = some (2, 2, 0, 0) ∧
    OmittedPrepositions.fitStat corpusScenario "relax" = none ∧
    OmittedPrepositions.transform eng (OmittedPrepositions.fitStat corpusScenario)
      27 ["i", "work"] = ["i", "work", "on"] := by
  have hstat : OmittedPrepositions.fitStat corpusScenario "work" = some (2, 2, 0, 0) := by
    decide
  refine ⟨hstat, by decide, ?_⟩
  rw [transform_eval eng _ 27 ["i", "work"] "work" ⟨"work", "VERB"⟩ 2 2 0 0 rfl h rfl hstat]
  norm_num [maxIndex3, recGet, prepGet]

/-- C2 witness: the engine hypothesis discharged at the concrete `engVerb`. -/
theorem omitted_fit_scenario_witness :
    (engVerb "work").getLast? = some { text := "work", pos := "VERB" } ∧
    OmittedPrepositions.transform engVerb (OmittedPrepositions.fitStat corpusScenario)
      27 ["i", "work"] = ["i", "work", "on"] :=
  ⟨rfl, (omitted_fit_scenario engVerb rfl).2.2⟩

/-- C3: on a non-empty token list whose engine-analyzed last token is tagged
VERB and has a record `(t, a, b, c)` in the stat table, `transform` selects
the preposition with the maximal counter among `(with_on, with_at, with_in)`
(ties to the lowest index: `on` before `at` before `in`), computes
`factor = t / c` for the maximal counter `c` when `c > 0` and
`factor = threshold` when `c = 0`, and appends the selected preposition
exactly when `factor ≤ threshold`; in particular a record whose maximal
preposition counter is zero always causes the append. -/
theorem omitted_transform_decision (eng : String → List EngToken) (stat : Stat)
    (thr : ℕ) (X : List String) (lastX : String) (lastTok : EngToken)
    (t a b c : ℕ)
    (hX : X.getLast? = some lastX)
    (hdoc : (eng lastX).getLast? = some lastTok)
    (hpos : lastTok.pos = "VERB")
    (hstat : stat lastTok.text = some (t, a, b, c)) :
    (OmittedPrepositions.transform eng stat thr X =
      (if (if max a (max b c) = 0 then (thr : ℚ)
            else (t : ℚ) / ((max a (max b c) : ℕ) : ℚ)) ≤ (thr : ℚ)
       then X ++ [if a = max a (max b c) then "on"
                  else if b = max a (max b c) then "at" else "in"]
       else X)) ∧
    (max a (max b c) = 0 →
      OmittedPrepositions.transform eng stat thr X =
        X ++ [if a = max a (max b c) then "on"
              else if b = max a (max b c) then "at" else "in"]) := by
  have heval := transform_eval eng stat thr X lastX lastTok t a b c hX hdoc hpos hstat
  rw [recGet_maxIndex3, prepGet_maxIndex3] at heval
  have hfac :
      (if max a (max b c) ≠ 0 then (t : ℚ) / ((max a (max b c) : ℕ) : ℚ)
        else (thr : ℚ)) =
      (if max a (max b c) = 0 then (thr : ℚ)
        else (t : ℚ) / ((max a (max b c) : ℕ) : ℚ)) := by
    by_cases hm : max a (max b c) = 0
    · rw [if_neg (fun hcon => hcon hm), if_pos hm]
    · rw [if_pos hm, if_neg hm]
  rw [hfac] at heval
  refine ⟨heval, ?_⟩
  intro hm
  rw [heval, if_pos hm, if_pos (le_refl (thr : ℚ))]

/-- C3 witness: hypotheses discharged at `engVerb`, the table `statOneKey`
and the input `["work"]`; the decision appends `"on"`. -/
theorem omitted_transform_decision_witness :
    statOneKey "work" = some (2, 2, 0, 0) ∧
    OmittedPrepositions.transform engVerb statOneKey 27 ["work"] = ["work", "on"] := by
  have h := omitted_transform_decision engVerb statOneKey 27 ["work"] "work"
    ⟨"work", "VERB"⟩ 2 2 0 0 rfl rfl rfl (by decide)
  refine ⟨by decide, ?_⟩
  rw [h.1]
  norm_num

/-- C9: `OmittedPrepositions.transform` returns either the input token list
unchanged, or the input list with exactly one of `on`, `at`, `in` appended at
the end; the pre-existing tokens are never modified, removed or reordered. -/
theorem omitted_transform_frame (eng : String → List EngToken) (stat : Stat)
    (thr : ℕ) (X : List String) :
    OmittedPrepositions.transform eng stat thr X = X ∨
      ∃ p, p ∈ prepositions ∧
        OmittedPrepositions.transform eng stat thr X = X ++ [p] := by
  unfold OmittedPrepositions.transform
  rcases hX : X.getLast? with _ | lastX
  · exact Or.inl rfl
  · dsimp only
    rcases hdoc : (eng lastX).getLast? with _ | lastTok
    · exact Or.inl rfl
    · dsimp only
      by_cases hpos : lastTok.pos = "VERB"
      · rw [if_pos hpos]
        rcases hstat : stat lastTok.text with _ | v
        · exact Or.inl rfl
        · obtain ⟨t, a, b, c⟩ := v
          dsimp only
          by_cases hfac :
              (if recGet (t, a, b, c) (maxIndex3 a b c) ≠ 0 then
                  (t : ℚ) / (recGet (t, a, b, c) (maxIndex3 a b c) : ℚ)
                else (thr : ℚ)) ≤ (thr : ℚ)
          · rw [if_pos hfac]
            exact Or.inr ⟨prepGet (maxIndex3 a b c - 1), prepGet_mem _, rfl⟩
          · rw [if_neg hfac]
            exact Or.inl rfl
      · rw [if_neg hpos]
        exact Or.inl rfl

/-- `save(None)` on an instance with a truthy configured path writes the
artifact at `path/file_name`. -/
theorem opSave_none_param (m : OPModel) (store : Store)
    (h : truthyPath m.storage_path = true) :
    opSave m none store =
      (m, fun p =>
        if p = pathJoin (m.storage_path.getD "") opFileName then
          some { stat := m.stat, threshold := m.threshold }
        else store p) := by
  unfold opSave
  have hn : truthyPath (none : Option String) = false := rfl
  simp [hn, h]

/-- `load(None)` on an instance with a truthy configured path reads the
artifact at `path/file_name`. -/
theorem opLoad_none_param (m : OPModel) (store : Store)
    (h : truthyPath m.storage_path = true) :
    opLoad m none store =
      (match store (pathJoin (m.storage_path.getD "") opFileName) with
       | none => Except.error "FileNotFoundError"
       | some art => Except.ok { m with stat := art.stat }) := by
  unfold opLoad
  have hn : truthyPath (none : Option String) = false := rfl
  simp [hn, h]

theorem opLoad_unconfigured (m : OPModel) (store : Store)
    (h : truthyPath m.storage_path = false) :
    opLoad m none store = Except.ok m := by
  unfold opLoad
  have hn : truthyPath (none : Option String) = false := rfl
  simp [hn, h]

theorem opSave_unconfigured (m : OPModel) (store : Store)
    (h : truthyPath m.storage_path = false) :
    opSave m none store = (m, store) := by
  unfold opSave
  have hn : truthyPath (none : Option String) = false := rfl
  simp [hn, h]

/-- C4 counterexample: in `"i work\ton tuesday"` the preposition `on` is its
own whitespace-delimited token (tab-delimited), so per the claim the string
must contribute the pair `(work, on)` to the table; the compiled pattern
requires a literal space before the preposition, the string is discarded, and
after `fit` there is no record for `"work"` at all. -/
theorem fit_filter_counterexample :
    pySplit "i work\ton tuesday" = ["i", "work", "on", "tuesday"] ∧
    "on" ∈ prepositions ∧
    prepFullmatch "i work\ton tuesday" = false ∧
    OmittedPrepositions.fitStat ["i work\ton tuesday"] "work" = none := by
  decide

/-- C4 amended: a training string contributes adjacent-pair preposition
counts if and only if it fully matches the compiled preposition pattern (one
of `on`/`at`/`in` preceded by at least one literal space character and
followed by literal spaces or the end of the string — so a preposition that
is only the first token, or only delimited by tabs or newlines, does not
qualify) AND some token at position ≥ 1 of its whitespace split is a
preposition; and in the second full pass over the entire corpus each record's
total counter is incremented once per whitespace-token occurrence of its
key. -/
theorem fit_filter_amended :
    (∀ (st : Stat) (s : String),
        (∃ k, prepSum st k < prepSum (phase1Str st s) k) ↔
          (prepFullmatch s = true ∧ hasAdjacentPrep (pySplit s))) ∧
    (∀ (st : Stat) (X : List String) (k : String) (t a b c : ℕ),
        st k = some (t, a, b, c) →
        totalPass st X k = some (t + corpusOcc k X, a, b, c)) := by
  constructor
  · intro st s
    unfold phase1Str
    by_cases hm : prepFullmatch s = true
    · rw [if_pos hm]
      constructor
      · rintro ⟨k, hk⟩
        refine ⟨hm, ?_⟩
        rw [prepSum_pairLoop] at hk
        exact (exists_countPairs_pos _).1 ⟨k, by omega⟩
      · rintro ⟨-, hadj⟩
        obtain ⟨k, hk⟩ := (exists_countPairs_pos _).2 hadj
        exact ⟨k, by rw [prepSum_pairLoop]; omega⟩
    · rw [if_neg hm]
      constructor
      · rintro ⟨k, hk⟩
        exact absurd hk (lt_irrefl _)
      · rintro ⟨hm2, -⟩
        exact absurd hm2 hm
  · intro st X k t a b c h
    exact totalPass_some X st k t a b c h

/-- C4 witness: the total-pass conclusion discharged at a concrete table and
corpus: `"work"` occurs twice in `"work work"`, so its total goes from 2 to
4 while the preposition counters are untouched. -/
theorem fit_filter_amended_witness :
    statOneKey "work" = some (2, 2, 0, 0) ∧
    totalPass statOneKey ["work work"] "work" = some (4, 2, 0, 0) := by
  refine ⟨by decide, ?_⟩
  have h := fit_filter_amended.2 statOneKey ["work work"] "work" 2 2 0 0 (by decide)
  rw [h]
  decide

/-- C6: after `fit` on any list of strings, every record satisfies
`total ≥ max(with_on, with_at, with_in)`, all four fields are non-negative,
and at least one preposition counter is strictly positive. -/
theorem fit_stat_invariant (X : List String) (k : String) (t a b c : ℕ)
    (h : OmittedPrepositions.fitStat X k = some (t, a, b, c)) :
    max a (max b c) ≤ t ∧ (0 ≤ t ∧ 0 ≤ a ∧ 0 ≤ b ∧ 0 ≤ c) ∧
      (1 ≤ a ∨ 1 ≤ b ∨ 1 ≤ c) := by
  rcases hp : phase1 X k with _ | v
  · have hnone := totalPass_none X (phase1 X) k hp
    unfold OmittedPrepositions.fitStat at h
    rw [hnone] at h
    exact Option.noConfusion h
  · obtain ⟨t0, a0, b0, c0⟩ := v
    have htp := totalPass_some X (phase1 X) k t0 a0 b0 c0 hp
    unfold OmittedPrepositions.fitStat at h
    rw [htp] at h
    simp only [Option.some.injEq, Prod.mk.injEq] at h
    obtain ⟨he1, he2, he3, he4⟩ := h
    have htot : totalOf (phase1 X) k = 0 := by
      unfold phase1
      rw [totalOf_phase1_fold X emptyStat k]
      rfl
    have ht0 : t0 = 0 := by
      rw [totalOf_eq, hp] at htot
      simpa using htot
    have hps : prepSum (phase1 X) k = a0 + b0 + c0 := by
      rw [prepSum_eq, hp]
      rfl
    have hsum_le : prepSum (phase1 X) k ≤ corpusPairs k X := by
      unfold phase1
      have hle := prepSum_phase1_fold_le X emptyStat k
      have hemp : prepSum emptyStat k = 0 := rfl
      omega
    have hne : phase1 X k ≠ none := by
      rw [hp]
      exact fun hcon => Option.noConfusion hcon
    have hpos : 1 ≤ prepSum (phase1 X) k :=
      phase1_fold_pos X emptyStat (fun k2 hk2 => absurd rfl hk2) k hne
    have hle2 := corpusPairs_le_corpusOcc k X
    refine ⟨?_, ⟨Nat.zero_le _, Nat.zero_le _, Nat.zero_le _, Nat.zero_le _⟩, by omega⟩
    exact max_le (by omega) (max_le (by omega) (by omega))

/-- C6 witness: the invariant discharged at the fitted table of `["a on"]`,
whose record for `"a"` is `(1, 1, 0, 0)`. -/
theorem fit_stat_invariant_witness :
    OmittedPrepositions.fitStat ["a on"] "a" = some (1, 1, 0, 0) ∧
    (max 1 (max 0 0) ≤ 1 ∧ (0 ≤ 1 ∧ 0 ≤ 1 ∧ 0 ≤ 0 ∧ 0 ≤ 0) ∧
      (1 ≤ 1 ∨ 1 ≤ 0 ∨ 1 ≤ 0)) :=
  ⟨by decide, fit_stat_invariant ["a on"] "a" 1 1 0 0 (by decide)⟩

/-- C5: fit, save, then a fresh instance constructed with the same storage
location (whose `__init__` loads the artifact) yields a stat table identical
to the fitted one, while the fresh instance's threshold is the
constructor-configured 27; and, in general, loading any artifact replaces
only the stat table and never the threshold. -/
theorem fit_save_load_roundtrip (X : List String) (dir : String) (store : Store)
    (hdir : dir ≠ "") :
    (∃ m : OPModel,
        opInit (some dir)
          (opSave { storage_path := some dir, stat := OmittedPrepositions.fitStat X,
                    threshold := 27 } none store).2 = Except.ok m ∧
        m.stat = OmittedPrepositions.fitStat X ∧ m.threshold = 27) ∧
    (∀ (st0 : Stat) (thr0 : ℕ) (art : Artifact) (store2 : Store),
        store2 (pathJoin dir opFileName) = some art →
        opLoad { storage_path := some dir, stat := st0, threshold := thr0 } none store2 =
          Except.ok { storage_path := some dir, stat := art.stat, threshold := thr0 }) := by
  have htrue : truthyPath (some dir) = true := by
    simp [truthyPath, hdir]
  constructor
  · refine ⟨{ storage_path := some dir, stat := OmittedPrepositions.fitStat X,
              threshold := 27 }, ?_, rfl, rfl⟩
    rw [opSave_none_param _ store htrue]
    unfold opInit opLoad
    have hn : truthyPath (none : Option String) = false := rfl
    simp [htrue]
  · intro st0 thr0 art store2 hstore
    rw [opLoad_none_param _ store2 htrue]
    simp only [Option.getD_some, hstore]

/-- C5 witness: the round trip discharged at the corpus `["a on"]`, the
directory `"models"` and the empty file system. -/
theorem fit_save_load_roundtrip_witness :
    ("models" : String) ≠ "" ∧
    (∃ m : OPModel,
        opInit (some "models")
          (opSave { storage_path := some "models",
                    stat := OmittedPrepositions.fitStat ["a on"],
                    threshold := 27 } none (fun _ => none)).2 = Except.ok m ∧
        m.stat = OmittedPrepositions.fitStat ["a on"] ∧ m.threshold = 27) :=
  ⟨by decide, (fit_save_load_roundtrip ["a on"] "models" (fun _ => none) (by decide)).1⟩

/-- C7: with a storage location configured but the artifact file absent,
`load` (and hence the construction, which calls it) raises; with no storage
location configured, `load` and `save` are no-ops leaving the in-memory state
and the file system unchanged. -/
theorem load_missing_artifact (dir : String) (store : Store) (hdir : dir ≠ "")
    (habsent : store (pathJoin dir opFileName) = none) :
    opInit (some dir) store = Except.error "FileNotFoundError" ∧
    (∀ m : OPModel, m.storage_path = none →
        opLoad m none store = Except.ok m ∧ opSave m none store = (m, store)) := by
  have htrue : truthyPath (some dir) = true := by
    simp [truthyPath, hdir]
  constructor
  · unfold opInit opLoad
    simp [htrue, habsent]
  · intro m hm
    have hfalse : truthyPath m.storage_path = false := by
      rw [hm]; rfl
    exact ⟨opLoad_unconfigured m store hfalse, opSave_unconfigured m store hfalse⟩

/-- C7 witness: the missing-artifact failure discharged at the directory
`"models"` over the empty file system, and the unconfigured no-op at a
concrete state. -/
theorem load_missing_artifact_witness :
    ("models" : String) ≠ "" ∧
    opInit (some "models") (fun _ => none) = Except.error "FileNotFoundError" ∧
    opLoad { storage_path := none, stat := emptyStat, threshold := 27 } none
      (fun _ => none) =
      Except.ok { storage_path := none, stat := emptyStat, threshold := 27 } := by
  have h := load_missing_artifact "models" (fun _ => none) (by decide) rfl
  exact ⟨by decide, h.1,
    (h.2 { storage_path := none, stat := emptyStat, threshold := 27 } rfl).1⟩

/-- C8 counterexample: with the contraction table containing
`he's ↦ he is`, on the input `he's xhe's` the token `xhe's` is not a key and
per the claim must stay unchanged, yet `X.replace(token, expansion)`
substitutes every substring occurrence of `he's`, so the output is
`he is xhe is`, not the claim's `he is xhe's`. -/
theorem decontract_counterexample :
    pySplit (pyReplace "he\x27s xhe\x27s" rightSingleQuote apostrophe) =
      ["he\x27s", "xhe\x27s"] ∧
    CONTRACTIONS "he\x27s" = some "he is" ∧
    CONTRACTIONS "xhe\x27s" = none ∧
    Decontract.transform CONTRACTIONS "he\x27s xhe\x27s" = "he is xhe is" ∧
    "he is xhe is" ≠ "he is xhe\x27s" := by
  decide

/-- C8 amended: `Decontract.transform` first replaces each right
single-quote with an apostrophe; then, iterating over the whitespace tokens
of the quote-normalized string in order, each token with a truthy expansion
in the table triggers `X.replace(token, expansion)` — every substring
occurrence of the token in the current string is rewritten, so tokens merely
containing a key as a substring are affected too; a string none of whose
tokens is a key is returned with only the quote normalization applied. -/
theorem decontract_amended :
    (∀ (table : String → Option String) (X : String),
        (∀ tok ∈ pySplit (pyReplace X rightSingleQuote apostrophe), table tok = none) →
        Decontract.transform table X = pyReplace X rightSingleQuote apostrophe) ∧
    Decontract.transform CONTRACTIONS "i don’t know" = "i do not know" := by
  constructor
  · intro table X h
    unfold Decontract.transform
    exact foldl_decontractStep_none table _ _ h
  · decide

/-- C8 witness: the no-key conclusion discharged at the empty table and the
input `"a b"`. -/
theorem decontract_amended_witness :
    (∀ tok ∈ pySplit (pyReplace "a b" rightSingleQuote apostrophe),
        (fun _ => (none : Option String)) tok = none) ∧
    Decontract.transform (fun _ => none) "a b" =
      pyReplace "a b" rightSingleQuote apostrophe :=
  ⟨fun _ _ => rfl, decontract_amended.1 (fun _ => none) "a b" (fun _ _ => rfl)⟩

/-- C10: the synonym tuple of `GeneralizeTimeOfTheDay` contains the fused
string `bedtimeday` (adjacent string literals with a missing comma) and
neither `day` nor `bedtime`, so those two standalone tokens are never
replaced by `TIME_OF_THE_DAY`, while `daytime`, `daylight`, `morning`,
`evening`, `night` and `tonight` are replaced. -/
theorem time_of_day_synonyms_fused :
    (∀ token : String, stripPunct token = "day" ∨ stripPunct token = "bedtime" →
        timeOfDayMap token = token) ∧
    "bedtimeday" ∈ timeOfDaySynonyms ∧
    "day" ∉ timeOfDaySynonyms ∧
    "bedtime" ∉ timeOfDaySynonyms ∧
    GeneralizeTimeOfTheDay.transform
        "day bedtime daytime daylight morning evening night tonight" =
      "day bedtime TIME_OF_THE_DAY TIME_OF_THE_DAY TIME_OF_THE_DAY TIME_OF_THE_DAY TIME_OF_THE_DAY TIME_OF_THE_DAY" := by
  refine ⟨?_, by decide, by decide, by decide, by decide⟩
  intro token h
  unfold timeOfDayMap
  rcases h with h | h <;> rw [h] <;> rw [if_neg (by decide)]

/-- C10 witness: the never-replaced conclusion discharged at the token
`"day"`. -/
theorem time_of_day_synonyms_fused_witness :
    (stripPunct "day" = "day" ∨ stripPunct "day" = "bedtime") ∧
    timeOfDayMap "day" = "day" :=
  ⟨Or.inl (by decide), time_of_day_synonyms_fused.1 "day" (Or.inl (by decide))⟩
